import Mathlib

/-!
Verification of the mismatch-reconciliation and field-path matching core of
the llm-extraction-evaluator frontend.

The definitions below are a shallow embedding of:
  frontend/src/components/evaluation/evaluation_results/utils/mismatch.ts
    (buildMismatchInfo and its helper regexes),
  frontend/src/components/evaluation/evaluation_results/DocumentResultsViewer.tsx
    (the renderJsonScore classification logic, lines 360-522),
  frontend/src/components/evaluation/evaluation_results/utils/documentUtils.ts
    (isFieldExcluded),
  frontend/src/components/evaluation/evaluation_results/utils/fileUtils.ts
    (getValueAtPath, resolveScore).

JavaScript strings are modelled as Lean `String` (with the scanning done on
`List Char`), the fixed regular expressions of the source are implemented
directly as deterministic scanners with JavaScript leftmost/greedy backtracking
semantics, JSON documents as an inductive `Json` type, and `Record` objects as
association lists with first-writer-wins insertion.  All functions are
computable structural recursions (scanners that skip more than one character
use an explicit fuel argument equal to the string length) so that concrete
runs reduce inside the kernel.
-/

set_option autoImplicit false

namespace LlmEval

/-- The character class of the JavaScript regex escape `\s` (and of
`String.prototype.trim`): whitespace and line separators. -/
def isWsChar (c : Char) : Bool :=
  c = ' ' || c = '\t' || c = '\n' || c = '\r' || c.toNat = 11 || c.toNat = 12 ||
  c.toNat = 160 || c.toNat = 0x1680 || (0x2000 ≤ c.toNat && c.toNat ≤ 0x200a) ||
  c.toNat = 0x2028 || c.toNat = 0x2029 || c.toNat = 0x202f || c.toNat = 0x205f ||
  c.toNat = 0x3000 || c.toNat = 0xfeff

/-- The character class of the JavaScript regex `\d`: the ASCII digits. -/
def isDigitChar (c : Char) : Bool :=
  48 ≤ c.toNat && c.toNat ≤ 57

/-- A character the JavaScript regex `.` (without the `s` flag) does NOT
match: the line terminators. -/
def isLineTerm (c : Char) : Bool :=
  c = '\n' || c = '\r' || c.toNat = 0x2028 || c.toNat = 0x2029

/-- ASCII lowercasing of one character, as `String.prototype.toLowerCase`
acts on the ASCII range (the only range exercised by the evaluator data). -/
def lowerChar (c : Char) : Char :=
  if 65 ≤ c.toNat ∧ c.toNat ≤ 90 then Char.ofNat (c.toNat + 32) else c

/-- `toLowerCase` on a whole string. -/
def jsLower (s : String) : String :=
  String.mk (s.data.map lowerChar)

/-- `String.prototype.trim` on a character list: drop `\s` characters from
both ends. -/
def jsTrimList (l : List Char) : List Char :=
  ((l.dropWhile isWsChar).reverse.dropWhile isWsChar).reverse

/-- `String.prototype.trim`. -/
def jsTrim (s : String) : String :=
  String.mk (jsTrimList s.data)

/-- Value of a digit string (the regex capture `\d+`), as `parseInt` reads it. -/
def digitsToNat (l : List Char) : Nat :=
  l.foldl (fun acc c => acc * 10 + (c.toNat - 48)) 0

/-- `String.prototype.split(sep)` for a one-character separator, on character
lists; `"a..b".split(".")` gives `["a", "", "b"]` and `"".split(".")` gives
`[""]`, exactly as in JavaScript. -/
def splitOnChar (sep : Char) : List Char → List (List Char)
  | [] => [[]]
  | c :: rest =>
    match splitOnChar sep rest with
    | [] => [[c]]
    | h :: t => if c = sep then [] :: h :: t else (c :: h) :: t

/-- Split a character list at its first colon: `some (before, after)` when a
colon is present.  This is how the source regex fragment `([^:]+):` finds the
extent of its capture. -/
def splitAtFirstColon : List Char → Option (List Char × List Char)
  | [] => none
  | c :: rest =>
    if c = ':' then some ([], rest)
    else (splitAtFirstColon rest).map (fun p => (c :: p.1, p.2))

/-- First occurrence of a literal substring: `some (before, after)` splits
around the first occurrence of `pat` (the semantics of the single-occurrence
`String.prototype.replace(string, ...)` and of a leftmost literal regex
match). -/
def splitFirstSub (pat : List Char) : List Char → Option (List Char × List Char)
  | [] => if pat = [] then some ([], []) else none
  | c :: rest =>
    if pat.isPrefixOf (c :: rest) then some ([], (c :: rest).drop pat.length)
    else (splitFirstSub pat rest).map (fun p => (c :: p.1, p.2))

/-- Whether a string contains a literal substring (`String.prototype.includes`). -/
def containsSub (s sub : String) : Bool :=
  (splitFirstSub sub.data s.data).isSome

/-- `a.startsWith(b)`. -/
def strStartsWith (s pre : String) : Bool :=
  pre.data.isPrefixOf s.data

/-- The two mismatch kinds of the bracket tag. -/
inductive HighlightType where
  | FP
  | FN
deriving DecidableEq, Repr

/-- Case-sensitive bracket tag at the head of the list: the literal `[FP]` or
`[FN]` required by the path-extraction regex `\[(FP|FN)\]\s+([^:]+):`, which
has no `i` flag in the source. -/
def tagPrefixCS : List Char → Option (HighlightType × List Char)
  | '[' :: 'F' :: 'P' :: ']' :: rest => some (HighlightType.FP, rest)
  | '[' :: 'F' :: 'N' :: ']' :: rest => some (HighlightType.FN, rest)
  | _ => none

/-- Case-insensitive bracket tag at the head of the list, as matched by the
kind-extraction regex `\[(FP|FN)\]` with the `i` flag. -/
def tagPrefixCI : List Char → Option HighlightType
  | '[' :: c1 :: c2 :: ']' :: _ =>
    if lowerChar c1 = 'f' then
      if lowerChar c2 = 'p' then some HighlightType.FP
      else if lowerChar c2 = 'n' then some HighlightType.FN
      else none
    else none
  | _ => none

/-- Leftmost case-insensitive tag occurrence: the source `m.match(/\[(FP|FN)\]/i)`,
whose first capture (uppercased) is the mismatch kind. -/
def typeScanL : List Char → Option HighlightType
  | [] => none
  | c :: rest =>
    match tagPrefixCI (c :: rest) with
    | some ty => some ty
    | none => typeScanL rest

/-- Length of the maximal `\s` prefix of a list. -/
def wsRunLen (l : List Char) : Nat :=
  (l.takeWhile isWsChar).length

/-- The capture of `\s+([^:]+)` inside `u` (the characters strictly before
the first colon): the greedy `\s+` takes the maximal whitespace run, backing
off one character when it would leave the `[^:]+` capture empty. -/
def capturePath (u : List Char) : List Char :=
  u.drop (min (wsRunLen u) (u.length - 1))

/-- Attempt of the suffix `\s+([^:]+):` of the path-extraction regex at a
fixed position, `t` being the text after the tag: succeeds when `t` starts
with a whitespace character and its first colon leaves a nonempty capture. -/
def tryTagTail (t : List Char) : Option (List Char) :=
  match splitAtFirstColon t with
  | some (u, _) =>
    match u with
    | u0 :: _ :: _ => if isWsChar u0 then some (capturePath u) else none
    | _ => none
  | none => none

/-- Leftmost match of the whole path-extraction regex
`\[(FP|FN)\]\s+([^:]+):` — case-sensitive tag, then whitespace, then the
capture up to the first colon.  A failed attempt advances one character, as a
regex engine scan does. -/
def pathScanL : List Char → Option (HighlightType × List Char)
  | [] => none
  | c :: rest =>
    match tagPrefixCS (c :: rest) with
    | some (ty, t) =>
      match tryTagTail t with
      | some cap => some (ty, cap)
      | none => pathScanL rest
    | none => pathScanL rest

/-- The two leading regex matches of `buildMismatchInfo`: `typeMatch` gives
the kind (first case-insensitive tag), `pathMatch` gives the raw path (the
trimmed capture of the first case-sensitive full match); both must succeed or
the string is skipped. -/
def parseTag (m : String) : Option (HighlightType × String) :=
  match typeScanL m.data, pathScanL m.data with
  | some ty, some (_, cap) => some (ty, String.mk (jsTrimList cap))
  | _, _ => none

/-- A mismatch string is accepted when both leading regexes match. -/
def accepted (m : String) : Bool :=
  (parseTag m).isSome

/-- Tail of the compound-format regex
`^(.+)\[\|([^\|]+)\|\]\.([^.\[]+)\[([^\]]+)\]$` from the position where the
group-1 capture ends: requires `[|`, a nonempty pipe-free run, `|].`, a
nonempty dot-and-bracket-free field name, `[`, a nonempty bracket-free value,
and a closing `]` at the very end.  Each inner `+` is a character class that
excludes its own terminator, so the maximal run is the only candidate. -/
def tailCompound : List Char → Option (List Char × List Char × List Char)
  | '[' :: '|' :: rest =>
    let g2 := rest.takeWhile (fun c => c ≠ '|')
    match g2, rest.drop g2.length with
    | [], _ => none
    | _, '|' :: ']' :: '.' :: r2 =>
      let g3 := r2.takeWhile (fun c => c ≠ '.' ∧ c ≠ '[')
      match g3, r2.drop g3.length with
      | [], _ => none
      | _, '[' :: r4 =>
        let g4 := r4.takeWhile (fun c => c ≠ ']')
        match g4, r4.drop g4.length with
        | [], _ => none
        | _, [']'] => some (g2, g3, g4)
        | _, _ => none
      | _, _ => none
    | _, _ => none
  | _ => none

/-- Scan for the compound format, preferring the LONGEST group-1 capture
(the greedy `(.+)`, whose `.` does not cross line terminators): the last
position at which `tailCompound` succeeds with a nonempty prefix wins.
`acc` is the (reversed-not) prefix so far. -/
def compoundScan (acc : List Char) : List Char → Option (List Char × List Char × List Char × List Char)
  | [] => none
  | c :: rest =>
    match compoundScan (acc ++ [c]) rest with
    | some r => some r
    | none =>
      if acc ≠ [] ∧ acc.all (fun x => !isLineTerm x) then
        (tailCompound (c :: rest)).map (fun g => (acc, g.1, g.2.1, g.2.2))
      else none

/-- The compound-format match of `buildMismatchInfo`:
`rawPath.match(/^(.+)\[\|([^\|]+)\|\]\.([^.\[]+)\[([^\]]+)\]$/)`, capturing
(basePath, dosageValue, fieldName, actualValue). -/
def compoundMatch (s : String) : Option (String × String × String × String) :=
  (compoundScan [] s.data).map
    (fun g => (String.mk g.1, String.mk g.2.1, String.mk g.2.2.1, String.mk g.2.2.2))

/-- Tail of the pipe-only regex `^(.+)\[\|([^\|]+)\|\]\.([^.]+)$`: `[|`, a
nonempty pipe-free run, `|].`, then a nonempty dot-free run reaching the end. -/
def tailPipeOnly : List Char → Option (List Char × List Char)
  | '[' :: '|' :: rest =>
    let g2 := rest.takeWhile (fun c => c ≠ '|')
    match g2, rest.drop g2.length with
    | [], _ => none
    | _, '|' :: ']' :: '.' :: r2 =>
      if r2 ≠ [] ∧ r2.all (fun c => c ≠ '.') then some (g2, r2) else none
    | _, _ => none
  | _ => none

/-- Greedy scan for the pipe-only format (longest group-1 capture wins). -/
def pipeOnlyScan (acc : List Char) : List Char → Option (List Char × List Char × List Char)
  | [] => none
  | c :: rest =>
    match pipeOnlyScan (acc ++ [c]) rest with
    | some r => some r
    | none =>
      if acc ≠ [] ∧ acc.all (fun x => !isLineTerm x) then
        (tailPipeOnly (c :: rest)).map (fun g => (acc, g.1, g.2))
      else none

/-- The pipe-only-format match of `buildMismatchInfo`:
`rawPath.match(/^(.+)\[\|([^\|]+)\|\]\.([^.]+)$/)`, capturing
(basePath, dosageValue, fieldName). -/
def pipeOnlyMatch (s : String) : Option (String × String × String) :=
  (pipeOnlyScan [] s.data).map (fun g => (String.mk g.1, String.mk g.2.1, String.mk g.2.2))

/-- Attempt of the unanchored bracket-at-end regex
`([^\.\[\]]+)\[([^\]]+)\]$` at a fixed position: a nonempty run without dots
or brackets, a `[`, a nonempty run without `]`, and `]` as the last
character of the string. -/
def bracketTailAt : List Char → Option (List Char × List Char)
  | [] => none
  | c :: rest =>
    if c = '.' ∨ c = '[' ∨ c = ']' then none
    else
      let g1 := (c :: rest).takeWhile (fun x => x ≠ '.' ∧ x ≠ '[' ∧ x ≠ ']')
      match (c :: rest).drop g1.length with
      | '[' :: r2 =>
        let g2 := r2.takeWhile (fun x => x ≠ ']')
        match g2, r2.drop g2.length with
        | [], _ => none
        | _, [']'] => some (g1, g2)
        | _, _ => none
      | _ => none

/-- Leftmost match of `([^\.\[\]]+)\[([^\]]+)\]$` (the `bracketMatch` of the
source): scan left to right, first success wins. -/
def bracketScanL : List Char → Option (List Char × List Char)
  | [] => none
  | c :: rest =>
    match bracketTailAt (c :: rest) with
    | some r => some r
    | none => bracketScanL rest

/-- Whether the leftmost match of `\[([^\]]+)\]$` starts here: a `[`, a
nonempty bracket-free run, and the closing `]` as the final character. -/
def lastBracketHere : List Char → Bool
  | '[' :: rest =>
    let g := rest.takeWhile (fun c => c ≠ ']')
    g ≠ [] && rest.drop g.length = [']']
  | _ => false

/-- `rawPath.replace(/\[([^\]]+)\]$/, '')`: delete from the leftmost position
where the end-anchored bracket group matches (the rest of the string is the
match, so deleting it truncates there). -/
def removeLastBracketL : List Char → List Char
  | [] => []
  | c :: rest =>
    if lastBracketHere (c :: rest) then [] else c :: removeLastBracketL rest

/-- The sentinel the source splices into the base field before building its
regex. -/
def sentinel : List Char := "__ARRAY_IDX__".data

/-- A constructed `basePathRe` value.  `escapeForRegex` makes every character
of the interpolated strings a literal matcher, so the built regex is either a
pure literal `^...$` or a literal with exactly one `\[\d+\]` gadget where the
sentinel ended up. -/
inductive VbRe where
  | lit (s : String)
  | idxPat (pre post : String)
deriving DecidableEq, Repr

/-- `basePathRe.test(full)` for the constructed regexes: either literal
equality, or `full = pre ++ "[" ++ digits ++ "]" ++ post` with a nonempty
digit run. -/
def vbTest : VbRe → String → Bool
  | VbRe.lit s, full => full == s
  | VbRe.idxPat pre post, full =>
    if pre.data.isPrefixOf full.data then
      match full.data.drop pre.data.length with
      | '[' :: r =>
        let ds := r.takeWhile isDigitChar
        ds ≠ [] && r.drop ds.length = ']' :: post.data
      | _ => false
    else false

/-- Replace the first occurrence of a literal substring (the JavaScript
`String.prototype.replace` with a string pattern). -/
def replaceFirstSub (s pat repl : List Char) : List Char :=
  match splitFirstSub pat s with
  | some (b, a) => b ++ repl ++ a
  | none => s

/-- The regex construction of the bracket-at-end branch:
`baseField.replace('[||]', sentinel)` followed by
`'^' + escapeForRegex(withSentinel).replace(sentinel, '\[\d+\]') + '$'`.
The first `[||]` (if any) becomes the sentinel, and the first sentinel
occurrence of the escaped string becomes the any-numeric-index gadget. -/
def mkVbRe (baseField : String) : VbRe :=
  let withSentinel := replaceFirstSub baseField.data "[||]".data sentinel
  match splitFirstSub sentinel withSentinel with
  | some (pre, post) => VbRe.idxPat (String.mk pre) (String.mk post)
  | none => VbRe.lit (String.mk withSentinel)

/-- A `valueBased` entry of `MismatchInfo`: kind, constructed path regex and
the stored bracket value (the semantic key, possibly pipe-compound). -/
structure ValueBasedHighlight where
  type : HighlightType
  basePathRe : VbRe
  bracketValue : String
deriving DecidableEq, Repr

/-- The structured output of the mismatch parser: the exact-path table
(`pathMap`, an insertion-ordered record with first-writer-wins) and the
ordered value-based rules. -/
structure MismatchInfo where
  pathMap : List (String × HighlightType)
  valueBased : List ValueBasedHighlight
deriving DecidableEq, Repr

/-- Record lookup `pathMap[k]` (an `'FP' | 'FN'` value is always truthy, and
absence reads as undefined). -/
def lookupPM (pm : List (String × HighlightType)) (k : String) : Option HighlightType :=
  match pm with
  | [] => none
  | (k2, ty) :: rest => if k2 = k then some ty else lookupPM rest k

/-- The guarded record write `if (!pathMap[k]) pathMap[k] = ty`: first writer
wins. -/
def insertPM (pm : List (String × HighlightType)) (k : String) (ty : HighlightType) :
    List (String × HighlightType) :=
  match lookupPM pm k with
  | some _ => pm
  | none => pm ++ [(k, ty)]

/-- Generic global bracket-deletion scanner used for the three `replace`
regexes `\[\d+\]`, `\[[^\]]+\]` and `\[[^\d\]]+\]`: at each `[`, a nonempty
maximal run of class characters directly followed by `]` is deleted, the
scan resuming after it; the class of each source regex excludes `]`, so the
maximal run is the only candidate.  `fuel` is at least the list length. -/
def stripBrLoop (cls : Char → Bool) : Nat → List Char → List Char
  | 0, l => l
  | _ + 1, [] => []
  | fuel + 1, c :: rest =>
    if c = '[' then
      let g := rest.takeWhile cls
      if g ≠ [] ∧ (rest.drop g.length).head? = some ']' then
        stripBrLoop cls fuel (rest.drop (g.length + 1))
      else '[' :: stripBrLoop cls fuel rest
    else c :: stripBrLoop cls fuel rest

/-- `path.replace(/\[\d+\]/g, '')`: delete every numeric index segment. -/
def stripNumBrackets (s : String) : String :=
  String.mk (stripBrLoop isDigitChar s.data.length s.data)

/-- `rawPath.replace(/\[[^\]]+\]/g, '')`: delete every bracket group. -/
def stripAllBrackets (s : String) : String :=
  String.mk (stripBrLoop (fun c => c ≠ ']') s.data.length s.data)

/-- `rawPath.replace(/\[[^\d\]]+\]/g, '')`: delete every bracket group whose
content has no digit. -/
def stripNonNumBrackets (s : String) : String :=
  String.mk (stripBrLoop (fun c => !isDigitChar c ∧ c ≠ ']') s.data.length s.data)

/-- One `mismatches.forEach` step of `buildMismatchInfo`: skip unrecognized
strings, then try the compound, pipe-only and bracket-at-end forms in order,
falling back to the two exact-path writes.  The regex constructions of the
source are wrapped in `try/catch`, but `escapeForRegex` escapes every regex
metacharacter, so construction never fails and each bracket branch pushes
exactly one entry. -/
def processOne (info : MismatchInfo) (m : String) : MismatchInfo :=
  match parseTag m with
  | none => info
  | some (ty, rawPath) =>
    match compoundMatch rawPath with
    | some (basePath, dosageValue, fieldName, actualValue) =>
      MismatchInfo.mk info.pathMap
        (info.valueBased ++
          [ValueBasedHighlight.mk ty (VbRe.idxPat basePath ("." ++ fieldName))
            (dosageValue ++ "|" ++ actualValue)])
    | none =>
      match pipeOnlyMatch rawPath with
      | some (basePath, dosageValue, fieldName) =>
        MismatchInfo.mk info.pathMap
          (info.valueBased ++
            [ValueBasedHighlight.mk ty (VbRe.idxPat basePath ("." ++ fieldName)) dosageValue])
      | none =>
        match bracketScanL rawPath.data with
        | some (_, g2) =>
          MismatchInfo.mk info.pathMap
            (info.valueBased ++
              [ValueBasedHighlight.mk ty (mkVbRe (String.mk (removeLastBracketL rawPath.data)))
                (String.mk g2)])
        | none =>
          MismatchInfo.mk
            (insertPM (insertPM info.pathMap (stripAllBrackets rawPath) ty)
              (stripNonNumBrackets rawPath) ty)
            info.valueBased

/-- `buildMismatchInfo` of mismatch.ts: fold the per-string step over the
input list, starting from the empty record. -/
def buildMismatchInfo (ms : List String) : MismatchInfo :=
  ms.foldl processOne (MismatchInfo.mk [] [])

/-- JSON documents, as parsed ground-truth / extracted-data trees.  Object
fields keep insertion order, as JavaScript objects do. -/
inductive Json where
  | null
  | bool (b : Bool)
  | num (n : Int)
  | str (s : String)
  | arr (elems : List Json)
  | obj (fields : List (String × Json))

/-- JavaScript truthiness of a JSON value. -/
def isTruthy : Json → Bool
  | Json.null => false
  | Json.bool b => b
  | Json.num n => n ≠ 0
  | Json.str s => s ≠ ""
  | Json.arr _ => true
  | Json.obj _ => true

/-- First binding of a key in an object field list. -/
def lookupField : List (String × Json) → String → Option Json
  | [], _ => none
  | (k, v) :: rest, key => if k = key then some v else lookupField rest key

/-- A canonical array-index string: the decimal numeral without leading
zeros, the only string keys under which JavaScript array (and string)
elements are reachable. -/
def canonIndex (s : String) : Option Nat :=
  match s.data with
  | [] => none
  | ['0'] => some 0
  | '0' :: _ => none
  | ds => if ds.all isDigitChar then some (digitsToNat ds) else none

/-- JavaScript property access `v[key]` on a JSON value (`undefined` is
`none`): object fields by name, array and string elements by canonical index
string, nothing on other primitives.  `null` has no properties; the access
sites in the source all use optional chaining, so `null` reads as
`undefined` here. -/
def jsAccess : Json → String → Option Json
  | Json.obj fs, key => lookupField fs key
  | Json.arr xs, key =>
    match canonIndex key with
    | some i => xs.get? i
    | none => none
  | Json.str s, key =>
    match canonIndex key with
    | some i => (s.data.get? i).map (fun c => Json.str (String.mk [c]))
    | none => none
  | _, _ => none

/-- `v[i]` for a number index `i` (as in `current?.[key]?.[index]`): array
element, object property under the numeral string, or string character. -/
def jsIndexInt : Json → Int → Option Json
  | Json.arr xs, i => if 0 ≤ i then xs.get? i.toNat else none
  | Json.obj fs, i => lookupField fs (toString i)
  | Json.str s, i =>
    if 0 ≤ i then (s.data.get? i.toNat).map (fun c => Json.str (String.mk [c])) else none
  | _, _ => none

/-- `parseInt(s)` in base 10: skip whitespace, optional sign, then a
nonempty leading digit run (NaN — modelled as `none` — otherwise; the
source only ever reaches it with digit strings, so the hexadecimal prefix
of full `parseInt` is not modelled). -/
def jsParseInt (s : String) : Option Int :=
  let l := s.data.dropWhile isWsChar
  match l with
  | '-' :: r =>
    let g := r.takeWhile isDigitChar
    if g = [] then none else some (-(digitsToNat g : Int))
  | '+' :: r =>
    let g := r.takeWhile isDigitChar
    if g = [] then none else some (digitsToNat g : Int)
  | r =>
    let g := r.takeWhile isDigitChar
    if g = [] then none else some (digitsToNat g : Int)

/-- Remove the first occurrence of a character (`indexStr.replace(']', '')`
removes only the first `]`). -/
def removeFirstChar (c : Char) : List Char → List Char
  | [] => []
  | x :: r => if x = c then r else x :: removeFirstChar c r

/-- One path part of `getValueAtPath`: `part` containing both `[` and `]`
splits at its first `[` into a key and an index string (first `]` deleted,
then `parseInt`), giving `current?.[key]?.[index]`; otherwise a plain
property access. -/
def gvStep (cur : Json) (part : List Char) : Option Json :=
  if part.contains '[' ∧ part.contains ']' then
    match splitOnChar '[' part with
    | key :: indexStr :: _ =>
      let idx := jsParseInt (String.mk (removeFirstChar ']' indexStr))
      match jsAccess cur (String.mk key) with
      | some v =>
        match idx with
        | some i => jsIndexInt v i
        | none => none
      | none => none
    | _ => none
  else jsAccess cur (String.mk part)

/-- The part loop of `getValueAtPath`: stop with `undefined` as soon as a
step yields it, otherwise return the final value (possibly `null`). -/
def gvGo : Json → List (List Char) → Option Json
  | cur, [] => some cur
  | cur, part :: rest =>
    match gvStep cur part with
    | some v => gvGo v rest
    | none => none

/-- `getValueAtPath(obj, path)` of fileUtils.ts: falsy object or empty path
give `undefined`; otherwise walk the dot-separated parts. -/
def getValueAtPath (obj : Json) (path : String) : Option Json :=
  if isTruthy obj = false ∨ path = "" then none
  else gvGo obj (splitOnChar '.' path.data)

/-- JSON string quoting as `JSON.stringify` performs it on the escapes the
evaluator data exercises (quote, backslash, and the common control
characters; other code points are emitted verbatim). -/
def quoteJs (s : String) : String :=
  String.mk ('"' :: (s.data.foldr (fun c acc =>
    if c = '"' then '\\' :: '"' :: acc
    else if c = '\\' then '\\' :: '\\' :: acc
    else if c = '\n' then '\\' :: 'n' :: acc
    else if c = '\r' then '\\' :: 'r' :: acc
    else if c = '\t' then '\\' :: 't' :: acc
    else c :: acc) ['"']))

mutual

/-- `JSON.stringify` of a JSON value (no spacing argument). -/
def jsonStringify : Json → String
  | Json.null => "null"
  | Json.bool b => if b then "true" else "false"
  | Json.num n => toString n
  | Json.str s => quoteJs s
  | Json.arr xs => "[" ++ stringifyElems xs ++ "]"
  | Json.obj fs => "\x7b" ++ stringifyFields fs ++ "\x7d"

/-- Comma-joined stringified array elements. -/
def stringifyElems : List Json → String
  | [] => ""
  | [x] => jsonStringify x
  | x :: xs => jsonStringify x ++ "," ++ stringifyElems xs

/-- Comma-joined stringified object fields. -/
def stringifyFields : List (String × Json) → String
  | [] => ""
  | [(k, v)] => quoteJs k ++ ":" ++ jsonStringify v
  | (k, v) :: fs => quoteJs k ++ ":" ++ jsonStringify v ++ "," ++ stringifyFields fs

end

/-- `JSON.stringify` lifted to a possibly-undefined value:
`JSON.stringify(undefined)` is `undefined`. -/
def jsonStringifyOpt : Option Json → Option String
  | some v => some (jsonStringify v)
  | none => none

/-- `String(v)` for the leaf values the value-based loop accepts
(`v != null && typeof v !== 'object'`): strings, numbers and booleans; `none`
for `null`, `undefined`, arrays and objects. -/
def primStr : Option Json → Option String
  | some (Json.str s) => some s
  | some (Json.num n) => some (toString n)
  | some (Json.bool b) => some (if b then "true" else "false")
  | _ => none

/-- The literal head of the hardcoded container regex
`/medications\.medications\[(\d+)\]\./`. -/
def medHead : List Char := "medications.medications[".data

/-- Whether the hardcoded container regex matches at this exact position:
the literal head, a nonempty digit run, `]`, `.`; the captured digits are
returned. -/
def medIdxAt (l : List Char) : Option (List Char) :=
  if medHead.isPrefixOf l then
    let r := l.drop medHead.length
    let g := r.takeWhile isDigitChar
    if g ≠ [] ∧ (r.drop g.length).head? = some ']' ∧
        (r.drop (g.length + 1)).head? = some '.' then some g
    else none
  else none

/-- Leftmost match of `full.match(/medications\.medications\[(\d+)\]\./)`,
with the captured index already through `parseInt`. -/
def findMedIdxL : List Char → Option Nat
  | [] => none
  | c :: rest =>
    match medIdxAt (c :: rest) with
    | some g => some (digitsToNat g)
    | none => findMedIdxL rest

/-- `findMedIdxL` on a path string. -/
def findMedIdx (full : String) : Option Nat :=
  findMedIdxL full.data

/-- `currentRootData?.medications?.medications?.[index]`. -/
def medLookup (root : Json) (i : Nat) : Option Json :=
  match jsAccess root "medications" with
  | some a =>
    match jsAccess a "medications" with
    | some b => jsIndexInt b (i : Int)
    | none => none
  | none => none

/-- The guard `medication && medication.dosage === dosage` of the
classification loop: the element at the hardcoded container index must be
truthy and its `dosage` field must be EXACTLY (case-sensitively, `===`) the
string `d`. -/
def dosageMatches (root : Json) (i : Nat) (d : String) : Bool :=
  match medLookup root i with
  | some med =>
    isTruthy med &&
      (match jsAccess med "dosage" with
       | some (Json.str x) => x == d
       | _ => false)
  | none => false

/-- `bracketValue.includes('|')`. -/
def containsPipe (s : String) : Bool :=
  s.data.contains '|'

/-- `const [dosage, expectedValue] = bracketValue.split('|')`: the first two
components of the pipe split (further components are dropped by the
destructuring). -/
def splitPipe2 (s : String) : String × String :=
  match splitOnChar '|' s.data with
  | a :: b :: _ => (String.mk a, String.mk b)
  | a :: [] => (String.mk a, "")
  | [] => ("", "")

/-- The per-entry body of the value-based loop once `basePathRe` matched:
pipe-compound keys require the hardcoded container plus exact dosage plus
case-insensitive expected value; pipe-free keys require exact dosage inside
the container, falling back to direct case-insensitive value equality
outside it.  `valStr` is the already-lowercased leaf string. -/
def entryInner (root : Json) (full valStr : String) (e : ValueBasedHighlight) : Bool :=
  if containsPipe e.bracketValue then
    match findMedIdx full with
    | some i =>
      dosageMatches root i (splitPipe2 e.bracketValue).1 &&
        valStr == jsLower (splitPipe2 e.bracketValue).2
    | none => false
  else
    match findMedIdx full with
    | some i => dosageMatches root i e.bracketValue
    | none => valStr == jsLower e.bracketValue

/-- The `for (const entry of mismatchInfo.valueBased)` loop with its
`break`: the first entry whose regex matches the path and whose inner check
succeeds sets the highlight; entries whose regex matches but whose inner
check fails do not stop the loop. -/
def valueHighlight (entries : List ValueBasedHighlight) (root : Json) (full valStr : String) :
    Option HighlightType :=
  (entries.find? (fun e => vbTest e.basePathRe full && entryInner root full valStr e)).map
    (fun e => e.type)

/-- The value-based stage of the classification: runs only for non-null
non-object leaves, on the lowercased `String(v)`. -/
def valueHighlightOpt (info : MismatchInfo) (root : Json) (full : String) (v : Option Json) :
    Option HighlightType :=
  match primStr v with
  | some s => valueHighlight info.valueBased root full (jsLower s)
  | none => none

/-- The exact-path fallback of the classification: the fully-indexed path
first, then the path with every numeric `[n]` segment stripped. -/
def pathMapHighlight (pm : List (String × HighlightType)) (full : String) : Option HighlightType :=
  match lookupPM pm full with
  | some h => some h
  | none => lookupPM pm (stripNumBrackets full)

/-- The complete highlight computation of `renderJsonScore` for one leaf. -/
def highlightOf (info : MismatchInfo) (root : Json) (full : String) (v : Option Json) :
    Option HighlightType :=
  match valueHighlightOpt info root full v with
  | some h => some h
  | none => pathMapHighlight info.pathMap full

/-- Map a single character of the dot-to-slash pass. -/
def dotToSlash (c : Char) : Char :=
  if c = '.' then '/' else c

/-- The `\[(\d+)\]/g → '/$1'` pass of the JSON-pointer conversion, with fuel
at least the list length. -/
def idxToSlashLoop : Nat → List Char → List Char
  | 0, l => l
  | _ + 1, [] => []
  | fuel + 1, c :: rest =>
    if c = '[' then
      let g := rest.takeWhile isDigitChar
      if g ≠ [] ∧ (rest.drop g.length).head? = some ']' then
        '/' :: (g ++ idxToSlashLoop fuel (rest.drop (g.length + 1)))
      else '[' :: idxToSlashLoop fuel rest
    else c :: idxToSlashLoop fuel rest

/-- `'/' + fieldPath.replace(/\./g, '/').replace(/\[(\d+)\]/g, '/$1')` of
`isFieldExcluded`. -/
def toJsonPointer (fieldPath : String) : String :=
  let l := fieldPath.data.map dotToSlash
  String.mk ('/' :: idxToSlashLoop l.length l)

/-- `path.replace(/\/\d+/g, '')`: remove every slash-plus-digit-run. -/
def normWildLoop : Nat → List Char → List Char
  | 0, l => l
  | _ + 1, [] => []
  | fuel + 1, c :: rest =>
    if c = '/' then
      let g := rest.takeWhile isDigitChar
      if g ≠ [] then normWildLoop fuel (rest.drop g.length)
      else '/' :: normWildLoop fuel rest
    else c :: normWildLoop fuel rest

/-- `normalizeForWildcard` of `isFieldExcluded`. -/
def normalizeForWildcard (p : String) : String :=
  String.mk (normWildLoop p.data.length p.data)

/-- One excluded-path test of `isFieldExcluded`: exact JSON-pointer match,
prefix (child-of) match, index-stripped match on both sides, or the final
wildcard-regex test.  The source builds that last regex as
`'^' + excludedPath.replace(/\//g, '\\/') + '$'` — only slashes are escaped,
so for the metacharacter-free JSON-pointer paths its callers author the test
is literal string equality against the index-stripped field pointer, which
is how it is embedded here. -/
def excludedCheck (jsonPointer ex : String) : Bool :=
  jsonPointer == ex ||
  strStartsWith jsonPointer (ex ++ "/") ||
  normalizeForWildcard jsonPointer == normalizeForWildcard ex ||
  (!containsSub ex "/0/" && !containsSub ex "/1/" && !containsSub ex "/2/" &&
    normalizeForWildcard jsonPointer == ex)

/-- `isFieldExcluded(fieldPath, excludedFields)` of documentUtils.ts. -/
def isFieldExcluded (fieldPath : String) (excludedFields : List String) : Bool :=
  if excludedFields.isEmpty then false
  else excludedFields.any (fun ex => excludedCheck (toJsonPointer fieldPath) ex)

/-- First score bound to a path in the score record. -/
def lookupScore : List (String × Rat) → String → Option Rat
  | [], _ => none
  | (k, q) :: rest, path => if k = path then some q else lookupScore rest path

/-- `resolveScore(path, scores)` of fileUtils.ts: the exact path first, then
the path with numeric indices stripped. -/
def resolveScore (path : String) (scores : List (String × Rat)) : Option Rat :=
  match lookupScore scores path with
  | some q => some q
  | none => lookupScore scores (stripNumBrackets path)

/-- The per-leaf outcome of the style computation of `renderJsonScore`:
excluded (muted), false-negative, false-positive, matched (green), or
score-colored entry. -/
inductive Classification where
  | excluded
  | falseNeg
  | falsePos
  | matched
  | scored (score : Rat)
deriving DecidableEq, Repr

/-- The classification precedence of `renderJsonScore` for one leaf at path
`full` with value `v` (`none` being a key absent from the rendered
document): exclusion first, then the FN/FP highlight, then the
score-undefined / score-1.0 / values-identical green case, otherwise the
numeric-score entry. -/
def classifyLeaf (info : MismatchInfo) (root : Json) (excludedFields : List String)
    (scores : List (String × Rat)) (groundTruthData : Json) (full : String) (v : Option Json) :
    Classification :=
  let highlight := highlightOf info root full v
  if isFieldExcluded full excludedFields then Classification.excluded
  else if highlight = some HighlightType.FN then Classification.falseNeg
  else if highlight = some HighlightType.FP then Classification.falsePos
  else
    match resolveScore full scores with
    | none => Classification.matched
    | some q =>
      if q = 1 then Classification.matched
      else if jsonStringifyOpt v = jsonStringifyOpt (getValueAtPath groundTruthData full) then
        Classification.matched
      else Classification.scored q

/-- `Object.keys` of a rendered object node. -/
def objKeys : Json → List String
  | Json.obj fs => fs.map (fun p => p.1)
  | _ => []

/-- The counterpart keys of `renderJsonScore`: the keys of
`path ? getValueAtPath(groundTruthData, path) : groundTruthData` when that
value is a truthy non-array object, else none. -/
def gtKeysAt (groundTruthData : Json) (path : String) : List String :=
  let gtAtPath := if path = "" then some groundTruthData else getValueAtPath groundTruthData path
  match gtAtPath with
  | some (Json.obj fs) => fs.map (fun p => p.1)
  | _ => []

/-- `[...new Set(l)]`: first-occurrence deduplication. -/
def dedupAux (seen : List String) : List String → List String
  | [] => []
  | x :: xs => if x ∈ seen then dedupAux seen xs else x :: dedupAux (x :: seen) xs

/-- `[...new Set(l)]` from an empty seen set. -/
def dedup (l : List String) : List String :=
  dedupAux [] l

/-- The key set `renderJsonScore` visits for an object node: its own keys,
unioned (with first-occurrence dedup) with the counterpart keys at the same
path when `showMissingKeys` is set. -/
def allKeysFor (data groundTruthData : Json) (path : String) (showMissingKeys : Bool) :
    List String :=
  let dataKeys := objKeys data
  if showMissingKeys then dedup (dataKeys ++ gtKeysAt groundTruthData path)
  else dataKeys

/-- The specification example root document: one medication with dosage
500mg and sig Daily. -/
def sampleRoot500 : Json :=
  Json.obj [("medications", Json.obj [("medications",
    Json.arr [Json.obj [("dosage", Json.str "500mg"), ("med_sig", Json.str "Daily")]])])]

/-- The same document with the stored dosage changed to 750mg. -/
def sampleRoot750 : Json :=
  Json.obj [("medications", Json.obj [("medications",
    Json.arr [Json.obj [("dosage", Json.str "750mg"), ("med_sig", Json.str "Daily")]])])]

/-- The concrete leaf path of the array-semantic-matching example. -/
def medLeafPath : String := "medications.medications[0].med_sig"

/-!  Claim theorems. -/

/-- Claim C1, counterexample.  The pipe-less mismatch string
`[FP] medications.medications[500mg].med_sig[Daily]: ...` of the claim does
NOT produce a FalsePositive for the leaf `medications.medications[0].med_sig`
with value `Daily` over the 500mg root document: no bracket form of the
parser accepts a pipe-less discriminator, so the string falls to the
bracket-at-end form, whose constructed regex only matches the literal path
`medications.medications[500mg].med_sig`, and the leaf classifies as a plain
match. -/
theorem c1_counterexample :
    highlightOf
        (buildMismatchInfo ["[FP] medications.medications[500mg].med_sig[Daily]: flagged"])
        sampleRoot500 medLeafPath (some (Json.str "Daily")) = none ∧
    classifyLeaf
        (buildMismatchInfo ["[FP] medications.medications[500mg].med_sig[Daily]: flagged"])
        sampleRoot500 [] [] sampleRoot500 medLeafPath (some (Json.str "Daily")) ≠
      Classification.falsePos := by
  constructor
  · decide
  · decide

/-- Claim C1, amended: the discriminator must be written in the pipe-wrapped
compound form `medications.medications[|500mg|].med_sig[Daily]`.  Then the
leaf at `medications.medications[0].med_sig` with value `Daily` classifies
as FalsePositive over the 500mg document, and after changing the stored
dosage to 750mg the same leaf gets no FP/FN classification. -/
theorem c1_amended :
    highlightOf
        (buildMismatchInfo ["[FP] medications.medications[|500mg|].med_sig[Daily]: flagged"])
        sampleRoot500 medLeafPath (some (Json.str "Daily")) = some HighlightType.FP ∧
    classifyLeaf
        (buildMismatchInfo ["[FP] medications.medications[|500mg|].med_sig[Daily]: flagged"])
        sampleRoot500 [] [] sampleRoot500 medLeafPath (some (Json.str "Daily")) =
      Classification.falsePos ∧
    highlightOf
        (buildMismatchInfo ["[FP] medications.medications[|500mg|].med_sig[Daily]: flagged"])
        sampleRoot750 medLeafPath (some (Json.str "Daily")) = none ∧
    classifyLeaf
        (buildMismatchInfo ["[FP] medications.medications[|500mg|].med_sig[Daily]: flagged"])
        sampleRoot750 [] [] sampleRoot750 medLeafPath (some (Json.str "Daily")) =
      Classification.matched := by
  refine ⟨by decide, by decide, by decide, by decide⟩

/-- Claim C2, counterexample.  The discriminator comparison is NOT
case-insensitive: a rule built from
`[FP] medications.medications[|500MG|].med_sig[Daily]: ...` whose
discriminator `500MG` equals the stored dosage `500mg` up to case (and whose
path regex matches the leaf) still produces no highlight, because
`medication.dosage === dosage` compares exactly. -/
theorem c2_counterexample :
    jsLower "500MG" = jsLower "500mg" ∧
    vbTest
        (VbRe.idxPat "medications.medications" ".med_sig") medLeafPath = true ∧
    highlightOf
        (buildMismatchInfo ["[FP] medications.medications[|500MG|].med_sig[Daily]: flagged"])
        sampleRoot500 medLeafPath (some (Json.str "Daily")) = none := by
  refine ⟨by decide, by decide, by decide⟩

/-- Claim C2, amended: the comparisons against the LEAF value are
case-insensitive — case-equivalent leaf values receive identical highlight
classification — but the discriminator-vs-dosage comparison is exact
(case-sensitive): the same rule matches the 500mg document when its
discriminator is written `500mg` and fails when it is written `500MG`. -/
theorem c2_amended :
    (∀ (info : MismatchInfo) (root : Json) (full s t : String),
        jsLower s = jsLower t →
        highlightOf info root full (some (Json.str s)) =
          highlightOf info root full (some (Json.str t))) ∧
    highlightOf
        (buildMismatchInfo ["[FP] medications.medications[|500mg|].med_sig[Daily]: flagged"])
        sampleRoot500 medLeafPath (some (Json.str "Daily")) = some HighlightType.FP ∧
    highlightOf
        (buildMismatchInfo ["[FP] medications.medications[|500MG|].med_sig[Daily]: flagged"])
        sampleRoot500 medLeafPath (some (Json.str "Daily")) = none := by
  refine ⟨?_, by decide, by decide⟩
  intro info root full s t h
  simp only [highlightOf, valueHighlightOpt, primStr, h]

/-- Claim C2 witness: the case-insensitivity part of the amended claim
applied at a concrete input. -/
theorem c2_witness :
    jsLower "DAILY" = jsLower "daily" ∧
    highlightOf
        (buildMismatchInfo ["[FP] medications.medications[|500mg|].med_sig[Daily]: flagged"])
        sampleRoot500 medLeafPath (some (Json.str "DAILY")) =
      highlightOf
        (buildMismatchInfo ["[FP] medications.medications[|500mg|].med_sig[Daily]: flagged"])
        sampleRoot500 medLeafPath (some (Json.str "daily")) :=
  ⟨by decide,
    c2_amended.1
      (buildMismatchInfo ["[FP] medications.medications[|500mg|].med_sig[Daily]: flagged"])
      sampleRoot500 medLeafPath "DAILY" "daily" (by decide)⟩

/-- Growing a record by a guarded write adds at most one binding. -/
theorem insertPM_length (pm : List (String × HighlightType)) (k : String) (ty : HighlightType) :
    pm.length ≤ (insertPM pm k ty).length ∧ (insertPM pm k ty).length ≤ pm.length + 1 := by
  unfold insertPM
  cases lookupPM pm k with
  | none => simp
  | some _ => simp

/-- Claim C3, counterexample.  A second fallback descriptor for an
already-recorded key adds NO entry at all (first writer wins), so an
accepted string can contribute zero `pathMap` entries, not "one or two":
after `[FP] a.b: x`, processing `[FN] a.b: y` leaves the record unchanged. -/
theorem c3_counterexample :
    accepted "[FN] a.b: y" = true ∧
    processOne (buildMismatchInfo ["[FP] a.b: x"]) "[FN] a.b: y" =
      buildMismatchInfo ["[FP] a.b: x"] ∧
    (buildMismatchInfo ["[FP] a.b: x"]).pathMap.length = 1 ∧
    (buildMismatchInfo ["[FP] a.b: x"]).valueBased.length = 0 := by
  refine ⟨by decide, by decide, by decide, by decide⟩

/-- Claim C3, amended.  Every `buildMismatchInfo` step contributes entries of
one kind only: it either leaves `valueBased` unchanged and grows `pathMap` by
zero, one or two entries (zero exactly when both candidate keys are already
present, or the string is skipped), or it leaves `pathMap` unchanged and
appends exactly one `valueBased` entry — never entries of both kinds. -/
theorem c3_amended (info : MismatchInfo) (m : String) :
    ((processOne info m).valueBased = info.valueBased ∧
      info.pathMap.length ≤ (processOne info m).pathMap.length ∧
      (processOne info m).pathMap.length ≤ info.pathMap.length + 2) ∨
    ((processOne info m).pathMap = info.pathMap ∧
      (processOne info m).valueBased.length = info.valueBased.length + 1) := by
  cases hpt : parseTag m with
  | none =>
    refine Or.inl ?_
    simp [processOne, hpt]
  | some tp =>
    obtain ⟨ty, rawPath⟩ := tp
    cases hc : compoundMatch rawPath with
    | some g =>
      obtain ⟨a, b, c, d⟩ := g
      refine Or.inr ?_
      simp [processOne, hpt, hc]
    | none =>
      cases hp : pipeOnlyMatch rawPath with
      | some g =>
        obtain ⟨a, b, c⟩ := g
        refine Or.inr ?_
        simp [processOne, hpt, hc, hp]
      | none =>
        cases hb : bracketScanL rawPath.data with
        | some g =>
          obtain ⟨a, b⟩ := g
          refine Or.inr ?_
          simp [processOne, hpt, hc, hp, hb]
        | none =>
          refine Or.inl ?_
          have h1 := insertPM_length info.pathMap (stripAllBrackets rawPath) ty
          have h2 := insertPM_length (insertPM info.pathMap (stripAllBrackets rawPath) ty)
            (stripNonNumBrackets rawPath) ty
          simp [processOne, hpt, hc, hp, hb]
          omega

/-- The uppercase tag literals required by the case-sensitive
path-extraction regex. -/
def fpTag : List Char := ['[', 'F', 'P', ']']

/-- The uppercase FN tag literal. -/
def fnTag : List Char := ['[', 'F', 'N', ']']

/-- A successful case-sensitive tag match means the list starts with one of
the uppercase tag literals. -/
theorem tagPrefixCS_tag (l : List Char) (p : HighlightType × List Char)
    (h : tagPrefixCS l = some p) :
    fpTag.isPrefixOf l = true ∨ fnTag.isPrefixOf l = true := by
  unfold tagPrefixCS at h
  split at h
  · exact Or.inl (by simp [fpTag, List.isPrefixOf])
  · exact Or.inr (by simp [fnTag, List.isPrefixOf])
  · exact absurd h (by simp)

/-- A literal prefix is in particular a first occurrence. -/
theorem splitFirstSub_isSome_of_head (pat l : List Char) (h : pat.isPrefixOf l = true) :
    (splitFirstSub pat l).isSome = true := by
  cases l with
  | nil =>
    have hp : pat = [] := by
      cases pat with
      | nil => rfl
      | cons a as => simp [List.isPrefixOf] at h
    subst hp
    simp [splitFirstSub]
  | cons c rest => simp [splitFirstSub, h]

/-- An occurrence in the tail is an occurrence in the whole list. -/
theorem splitFirstSub_cons_isSome (pat : List Char) (c : Char) (rest : List Char)
    (h : (splitFirstSub pat rest).isSome = true) :
    (splitFirstSub pat (c :: rest)).isSome = true := by
  by_cases hp : pat.isPrefixOf (c :: rest) = true
  · simp [splitFirstSub, hp]
  · simp only [splitFirstSub, Bool.not_eq_true] at hp ⊢
    rw [hp]
    simpa using h

/-- No occurrence in a list means no occurrence in its tail. -/
theorem splitFirstSub_tail_false (pat : List Char) (c : Char) (rest : List Char)
    (h : (splitFirstSub pat (c :: rest)).isSome = false) :
    (splitFirstSub pat rest).isSome = false := by
  cases hb : (splitFirstSub pat rest).isSome with
  | false => rfl
  | true => exact absurd (splitFirstSub_cons_isSome pat c rest hb) (by simp [h])

/-- Without an uppercase `[FP]` or `[FN]` substring, the case-sensitive
path-extraction scan finds nothing. -/
theorem pathScanL_none (l : List Char)
    (hfp : (splitFirstSub fpTag l).isSome = false)
    (hfn : (splitFirstSub fnTag l).isSome = false) :
    pathScanL l = none := by
  induction l with
  | nil => rfl
  | cons c rest ih =>
    have htag : tagPrefixCS (c :: rest) = none := by
      cases htc : tagPrefixCS (c :: rest) with
      | none => rfl
      | some p =>
        rcases tagPrefixCS_tag _ p htc with hp | hp
        · exact absurd (splitFirstSub_isSome_of_head _ _ hp) (by simp [hfp])
        · exact absurd (splitFirstSub_isSome_of_head _ _ hp) (by simp [hfn])
    simp only [pathScanL, htag]
    exact ih (splitFirstSub_tail_false _ _ _ hfp) (splitFirstSub_tail_false _ _ _ hfn)

/-- Claim C4, counterexample.  The bracket tag is NOT recognized
case-insensitively end to end: `[fn] patient.name: detail` produces no
entries at all, while `[FN] patient.name: detail` records the exact path —
the kind-extraction regex alone carries the `i` flag, but the
path-extraction regex is case-sensitive and rejects the string. -/
theorem c4_counterexample :
    buildMismatchInfo ["[fn] patient.name: detail"] = MismatchInfo.mk [] [] ∧
    buildMismatchInfo ["[FN] patient.name: detail"] =
      MismatchInfo.mk [("patient.name", HighlightType.FN)] [] := by
  refine ⟨by decide, by decide⟩

/-- Claim C4, amended.  Only strings containing an uppercase `[FP]` or
`[FN]` tag can produce entries: a mismatch string with no uppercase tag
substring (in particular any string whose tag is written in lower or mixed
case) is skipped entirely, leaving the record unchanged. -/
theorem c4_amended (info : MismatchInfo) (m : String)
    (hfp : containsSub m "[FP]" = false) (hfn : containsSub m "[FN]" = false) :
    processOne info m = info := by
  have hfp2 : (splitFirstSub fpTag m.data).isSome = false := by
    have he : "[FP]".data = fpTag := by decide
    unfold containsSub at hfp
    rwa [he] at hfp
  have hfn2 : (splitFirstSub fnTag m.data).isSome = false := by
    have he : "[FN]".data = fnTag := by decide
    unfold containsSub at hfn
    rwa [he] at hfn
  have hpath : pathScanL m.data = none := pathScanL_none m.data hfp2 hfn2
  have hpt : parseTag m = none := by
    unfold parseTag
    rw [hpath]
    cases typeScanL m.data <;> rfl
  simp [processOne, hpt]

/-- Claim C4 witness: the amended claim applied to the lowercase-tag string
of the original claim. -/
theorem c4_witness :
    containsSub "[fn] patient.name: detail" "[FP]" = false ∧
    containsSub "[fn] patient.name: detail" "[FN]" = false ∧
    processOne (MismatchInfo.mk [] []) "[fn] patient.name: detail" = MismatchInfo.mk [] [] :=
  ⟨by decide, by decide, c4_amended (MismatchInfo.mk [] []) _ (by decide) (by decide)⟩

/-- Claim C5.  Exclusion takes precedence over mismatch highlighting: a leaf
whose JSON-pointer form matches an excluded path exactly, as a child
(prefix), or after stripping array indices from both sides, classifies as
Excluded — never FalsePositive or FalseNegative — whatever the mismatch
info, value rules and scores say. -/
theorem c5_exclusion_precedence (info : MismatchInfo) (root : Json)
    (excludedFields : List String) (scores : List (String × Rat)) (gt : Json)
    (full : String) (v : Option Json) (ex : String)
    (hmem : ex ∈ excludedFields)
    (hmatch : toJsonPointer full = ex ∨
      strStartsWith (toJsonPointer full) (ex ++ "/") = true ∨
      normalizeForWildcard (toJsonPointer full) = normalizeForWildcard ex) :
    classifyLeaf info root excludedFields scores gt full v = Classification.excluded := by
  have hchk : excludedCheck (toJsonPointer full) ex = true := by
    unfold excludedCheck
    rcases hmatch with h | h | h
    · simp [h]
    · simp [h]
    · simp [h]
  have hexc : isFieldExcluded full excludedFields = true := by
    unfold isFieldExcluded
    have hne : excludedFields.isEmpty = false := by
      cases excludedFields with
      | nil => cases hmem
      | cons a l => rfl
    rw [hne]
    simp only [Bool.false_eq_true, if_false]
    exact List.any_eq_true.mpr ⟨ex, hmem, hchk⟩
  unfold classifyLeaf
  rw [hexc]
  simp

/-- Claim C5 witness: a path present both in the excluded list and in
`exactPaths` (as an FP entry) classifies as Excluded. -/
theorem c5_witness :
    "/patient/name" ∈ ["/patient/name"] ∧
    toJsonPointer "patient.name" = "/patient/name" ∧
    classifyLeaf (MismatchInfo.mk [("patient.name", HighlightType.FP)] []) Json.null
        ["/patient/name"] [] Json.null "patient.name" (some (Json.str "v")) =
      Classification.excluded :=
  ⟨by decide, by decide,
    c5_exclusion_precedence (MismatchInfo.mk [("patient.name", HighlightType.FP)] [])
      Json.null ["/patient/name"] [] Json.null "patient.name" (some (Json.str "v"))
      "/patient/name" (by decide) (Or.inl (by decide))⟩

/-- Claim C6.  When no value rule matched, the exact-path table is consulted
first with the fully-indexed path (a hit there wins) and then with the path
with every numeric `[n]` segment stripped. -/
theorem c6_exact_path_fallback (info : MismatchInfo) (root : Json) (full : String)
    (v : Option Json) (hv : valueHighlightOpt info root full v = none) :
    (∀ ty, lookupPM info.pathMap full = some ty → highlightOf info root full v = some ty) ∧
    (lookupPM info.pathMap full = none →
      highlightOf info root full v = lookupPM info.pathMap (stripNumBrackets full)) := by
  constructor
  · intro ty hty
    simp [highlightOf, hv, pathMapHighlight, hty]
  · intro hnone
    simp [highlightOf, hv, pathMapHighlight, hnone]

/-- Claim C6 witness: the claim instance — the entry under
`medications.medications.dosage` is found for the leaf
`medications.medications[3].dosage` when no indexed key exists. -/
theorem c6_witness :
    valueHighlightOpt (MismatchInfo.mk [("medications.medications.dosage", HighlightType.FN)] [])
        Json.null "medications.medications[3].dosage" (some (Json.str "10mg")) = none ∧
    lookupPM [("medications.medications.dosage", HighlightType.FN)]
        "medications.medications[3].dosage" = none ∧
    highlightOf (MismatchInfo.mk [("medications.medications.dosage", HighlightType.FN)] [])
        Json.null "medications.medications[3].dosage" (some (Json.str "10mg")) =
      some HighlightType.FN := by
  refine ⟨by decide, by decide, ?_⟩
  have h :=
    (c6_exact_path_fallback
      (MismatchInfo.mk [("medications.medications.dosage", HighlightType.FN)] [])
      Json.null "medications.medications[3].dosage" (some (Json.str "10mg"))
      (by decide)).2 (by decide)
  rw [h]
  decide

/-- Membership in the deduplicated list is membership in the source list
outside the seen set. -/
theorem mem_dedupAux (k : String) : ∀ (l seen : List String),
    k ∈ dedupAux seen l ↔ (k ∈ l ∧ k ∉ seen) := by
  intro l
  induction l with
  | nil => intro seen; simp [dedupAux]
  | cons x xs ih =>
    intro seen
    by_cases hx : x ∈ seen
    · rw [dedupAux, if_pos hx, ih]
      constructor
      · rintro ⟨h1, h2⟩
        exact ⟨List.mem_cons_of_mem x h1, h2⟩
      · rintro ⟨h1, h2⟩
        rcases List.mem_cons.mp h1 with h | h
        · subst h; exact absurd hx h2
        · exact ⟨h, h2⟩
    · rw [dedupAux, if_neg hx]
      constructor
      · intro hmem
        rcases List.mem_cons.mp hmem with h | h
        · subst h; exact ⟨List.mem_cons_self k xs, hx⟩
        · rcases (ih (x :: seen)).mp h with ⟨h1, h2⟩
          refine ⟨List.mem_cons_of_mem x h1, ?_⟩
          intro hk
          exact h2 (List.mem_cons_of_mem x hk)
      · rintro ⟨h1, h2⟩
        rcases List.mem_cons.mp h1 with h | h
        · subst h; exact List.mem_cons_self k _
        · by_cases hkx : k = x
          · subst hkx; exact List.mem_cons_self k _
          · refine List.mem_cons_of_mem x ((ih (x :: seen)).mpr ⟨h, ?_⟩)
            intro hk
            rcases List.mem_cons.mp hk with h3 | h3
            · exact hkx h3
            · exact h2 h3

/-- Claim C8.  With `showMissingKeys` set, the keys visited for an object
node are exactly the union of its own keys with the counterpart keys at the
same path; in particular, rendering ground truth with keys a and b against
extracted data with only a visits b, and a key entirely absent from the
rendered object but present in the counterpart is still visited. -/
theorem c8_missing_keys :
    (∀ (fs : List (String × Json)) (gt : Json) (path k : String),
      k ∈ allKeysFor (Json.obj fs) gt path true ↔
        (k ∈ objKeys (Json.obj fs) ∨ k ∈ gtKeysAt gt path)) ∧
    "b" ∈ allKeysFor (Json.obj [("a", Json.num 1), ("b", Json.num 2)])
        (Json.obj [("a", Json.num 1)]) "" true ∧
    "b" ∈ allKeysFor (Json.obj [("a", Json.num 1)])
        (Json.obj [("a", Json.num 1), ("b", Json.num 2)]) "" true := by
  refine ⟨?_, by decide, by decide⟩
  intro fs gt path k
  simp [allKeysFor, dedup, mem_dedupAux, List.mem_append]

/-- Claim C9.  `buildMismatchInfo` is total and strings not matching the
bracket-tag grammar are silently skipped: removing any unaccepted string
from the input leaves the result unchanged, so malformed descriptors neither
raise nor affect the processing of the remaining strings. -/
theorem c9_skip_malformed (pre post : List String) (bad : String)
    (hbad : accepted bad = false) :
    buildMismatchInfo (pre ++ bad :: post) = buildMismatchInfo (pre ++ post) := by
  have hpt : parseTag bad = none := by
    cases h : parseTag bad with
    | none => rfl
    | some v =>
      unfold accepted at hbad
      rw [h] at hbad
      simp at hbad
  have hskip : ∀ info, processOne info bad = info := by
    intro info
    simp [processOne, hpt]
  unfold buildMismatchInfo
  rw [List.foldl_append, List.foldl_append, List.foldl_cons, hskip]

/-- Claim C9 witness: a malformed string between two recognized ones changes
nothing. -/
theorem c9_witness :
    accepted "completely malformed descriptor" = false ∧
    buildMismatchInfo ["[FP] a.b: x", "completely malformed descriptor", "[FN] c.d: y"] =
      buildMismatchInfo ["[FP] a.b: x", "[FN] c.d: y"] :=
  ⟨by decide,
    c9_skip_malformed ["[FP] a.b: x"] ["[FN] c.d: y"] "completely malformed descriptor"
      (by decide)⟩

/-- Claim C10.  Sibling-discriminator matching is restricted to the one
hardcoded container: a pipe-compound rule can fire only on paths containing
`medications.medications[i].` and only when the element
`rootData.medications.medications[i]` has dosage EXACTLY equal to the
discriminator (case-sensitive `===`, witnessed by the concrete 500MG/500mg
pair); on paths outside that container a pipe-compound rule never fires, and
a pipe-free rule degenerates to direct case-insensitive equality between the
leaf value and the stored key. -/
theorem c10_hardcoded_container (e : ValueBasedHighlight) (root : Json)
    (full valStr s : String) (ty : HighlightType) :
    (containsPipe e.bracketValue = true → findMedIdx full = none →
      valueHighlight [e] root full valStr = none) ∧
    (containsPipe e.bracketValue = true →
      valueHighlight [e] root full valStr = some ty →
      ∃ i, findMedIdx full = some i ∧
        dosageMatches root i (splitPipe2 e.bracketValue).1 = true ∧
        valStr = jsLower (splitPipe2 e.bracketValue).2) ∧
    (containsPipe e.bracketValue = false → findMedIdx full = none →
      (valueHighlight [e] root full (jsLower s) = some ty ↔
        (vbTest e.basePathRe full = true ∧ jsLower s = jsLower e.bracketValue ∧
          ty = e.type))) ∧
    dosageMatches sampleRoot500 0 "500MG" = false ∧
    dosageMatches sampleRoot500 0 "500mg" = true := by
  refine ⟨?_, ?_, ?_, by decide, by decide⟩
  · intro hpipe hmed
    have hinner : entryInner root full valStr e = false := by
      simp only [entryInner, hpipe, if_true, hmed]
    simp [valueHighlight, hinner]
  · intro hpipe hvh
    cases hpred : (vbTest e.basePathRe full && entryInner root full valStr e) with
    | false =>
      simp [valueHighlight, hpred] at hvh
    | true =>
      obtain ⟨hre, hinner⟩ := Bool.and_eq_true_iff.mp hpred
      simp only [entryInner, hpipe, if_true] at hinner
      cases hmi : findMedIdx full with
      | none =>
        rw [hmi] at hinner
        simp at hinner
      | some i =>
        rw [hmi] at hinner
        obtain ⟨hd, hv⟩ := Bool.and_eq_true_iff.mp hinner
        exact ⟨i, rfl, hd, eq_of_beq hv⟩
  · intro hnp hmed
    have hinner_eq : entryInner root full (jsLower s) e =
        (jsLower s == jsLower e.bracketValue) := by
      simp only [entryInner, hnp, hmed]
      simp
    constructor
    · intro h
      cases hpred : (vbTest e.basePathRe full && entryInner root full (jsLower s) e) with
      | false =>
        simp [valueHighlight, hpred] at h
      | true =>
        obtain ⟨hre, hin⟩ := Bool.and_eq_true_iff.mp hpred
        have hty : ty = e.type := by
          simp [valueHighlight, hpred] at h
          exact h.symm
        rw [hinner_eq] at hin
        exact ⟨hre, eq_of_beq hin, hty⟩
    · rintro ⟨hre, heq, hty⟩
      have hin : entryInner root full (jsLower s) e = true := by
        rw [hinner_eq, heq]
        simp
      simp [valueHighlight, hre, hin, hty]

/-- Claim C10 witness: a pipe-compound rule on a non-medications container
path never fires even though its path regex matches, and a pipe-free rule on
such a path fires by case-insensitive leaf-value equality. -/
theorem c10_witness :
    valueHighlight
        [ValueBasedHighlight.mk HighlightType.FP (VbRe.idxPat "allergy.allergies" ".name") "x|y"]
        Json.null "allergy.allergies[0].name" "y" = none ∧
    valueHighlight
        [ValueBasedHighlight.mk HighlightType.FP (VbRe.idxPat "allergy.allergies" ".name")
          "Penicillin"]
        Json.null "allergy.allergies[0].name" (jsLower "PENICILLIN") = some HighlightType.FP := by
  constructor
  · exact
      (c10_hardcoded_container
        (ValueBasedHighlight.mk HighlightType.FP (VbRe.idxPat "allergy.allergies" ".name") "x|y")
        Json.null "allergy.allergies[0].name" "y" "y" HighlightType.FP).1
        (by decide) (by decide)
  · exact
      ((c10_hardcoded_container
        (ValueBasedHighlight.mk HighlightType.FP (VbRe.idxPat "allergy.allergies" ".name")
          "Penicillin")
        Json.null "allergy.allergies[0].name" "" "PENICILLIN" HighlightType.FP).2.2.1
        (by decide) (by decide)).mpr ⟨by decide, by decide, rfl⟩

/-- Splitting at the first colon of `u ++ ':' :: r` gives back `u` when `u`
is colon-free. -/
theorem splitAtFirstColon_append (u r : List Char) (hu : ∀ c ∈ u, c ≠ ':') :
    splitAtFirstColon (u ++ ':' :: r) = some (u, r) := by
  induction u with
  | nil => simp [splitAtFirstColon]
  | cons c cs ih =>
    have hc : c ≠ ':' := hu c (List.mem_cons_self c cs)
    simp [splitAtFirstColon, hc, ih (fun x hx => hu x (List.mem_cons_of_mem c hx))]

/-- Dropping at most the whitespace run does not change the
whitespace-trimmed tail. -/
theorem dropWhile_drop_ws : ∀ (k : Nat) (u : List Char), k ≤ wsRunLen u →
    (u.drop k).dropWhile isWsChar = u.dropWhile isWsChar := by
  intro k
  induction k with
  | zero => intro u _; rfl
  | succ n ih =>
    intro u hk
    cases u with
    | nil => simp [wsRunLen] at hk
    | cons c rest =>
      by_cases hc : isWsChar c = true
      · have hk2 : n ≤ wsRunLen rest := by
          show n ≤ (rest.takeWhile isWsChar).length
          simp [wsRunLen, List.takeWhile_cons, hc] at hk
          omega
        simp only [List.drop_succ_cons, List.dropWhile_cons, hc, if_true]
        exact ih rest hk2
      · simp [wsRunLen, List.takeWhile_cons, hc] at hk

/-- The backed-off capture trims to the same string as the raw pre-colon
text: `capturePath` only removes leading whitespace. -/
theorem jsTrimList_capturePath (u : List Char) :
    jsTrimList (capturePath u) = jsTrimList u := by
  unfold capturePath jsTrimList
  rw [dropWhile_drop_ws _ _ (Nat.min_le_left _ _)]

/-- A leading space disappears under trimming. -/
theorem jsTrimList_cons_space (l : List Char) : jsTrimList (' ' :: l) = jsTrimList l := by
  unfold jsTrimList
  rw [List.dropWhile_cons, if_pos (by decide)]

/-- The `\s+([^:]+):` tail succeeds on a space, a nonempty colon-free path
and a colon, capturing through `capturePath`. -/
theorem tryTagTail_concrete (p detail : List Char) (hp : p ≠ [])
    (hcolon : ∀ c ∈ p, c ≠ ':') :
    tryTagTail (' ' :: (p ++ ':' :: detail)) = some (capturePath (' ' :: p)) := by
  cases p with
  | nil => exact absurd rfl hp
  | cons q qs =>
    have hsp : splitAtFirstColon ((' ' :: q :: qs) ++ ':' :: detail) =
        some (' ' :: q :: qs, detail) := by
      apply splitAtFirstColon_append
      intro c hc
      rcases List.mem_cons.mp hc with h | h
      · subst h; decide
      · exact hcolon c h
    have hsp2 : splitAtFirstColon (' ' :: ((q :: qs) ++ ':' :: detail)) =
        some (' ' :: q :: qs, detail) := by
      simpa using hsp
    unfold tryTagTail
    rw [hsp2]
    simp [show isWsChar ' ' = true from by decide]

/-- The path-extraction scan succeeds at position zero on
`[FN]<space><path>:<detail>` with a colon-free nonempty path. -/
theorem pathScanL_fn (p detail : List Char) (hp : p ≠ []) (hcolon : ∀ c ∈ p, c ≠ ':') :
    pathScanL ('[' :: 'F' :: 'N' :: ']' :: ' ' :: (p ++ ':' :: detail)) =
      some (HighlightType.FN, capturePath (' ' :: p)) := by
  have step : pathScanL ('[' :: 'F' :: 'N' :: ']' :: ' ' :: (p ++ ':' :: detail)) =
      match tryTagTail (' ' :: (p ++ ':' :: detail)) with
      | some cap => some (HighlightType.FN, cap)
      | none => pathScanL ('F' :: 'N' :: ']' :: ' ' :: (p ++ ':' :: detail)) := rfl
  rw [step, tryTagTail_concrete p detail hp hcolon]

/-- A non-`[` head defeats the compound tail. -/
theorem tailCompound_none (c : Char) (rest : List Char) (hc : c ≠ '[') :
    tailCompound (c :: rest) = none := by
  unfold tailCompound
  split
  · simp_all
  · rfl

/-- Without any `[` the compound scan finds nothing. -/
theorem compoundScan_none (l : List Char) : ∀ (acc : List Char), '[' ∉ l →
    compoundScan acc l = none := by
  induction l with
  | nil => intro acc _; rfl
  | cons c rest ih =>
    intro acc h
    have hc : c ≠ '[' := fun hh => h (hh ▸ List.mem_cons_self c rest)
    have hrest : '[' ∉ rest := fun hr => h (List.mem_cons_of_mem c hr)
    simp only [compoundScan]
    rw [ih (acc ++ [c]) hrest, tailCompound_none c rest hc]
    simp

/-- A non-`[` head defeats the pipe-only tail. -/
theorem tailPipeOnly_none (c : Char) (rest : List Char) (hc : c ≠ '[') :
    tailPipeOnly (c :: rest) = none := by
  unfold tailPipeOnly
  split
  · simp_all
  · rfl

/-- Without any `[` the pipe-only scan finds nothing. -/
theorem pipeOnlyScan_none (l : List Char) : ∀ (acc : List Char), '[' ∉ l →
    pipeOnlyScan acc l = none := by
  induction l with
  | nil => intro acc _; rfl
  | cons c rest ih =>
    intro acc h
    have hc : c ≠ '[' := fun hh => h (hh ▸ List.mem_cons_self c rest)
    have hrest : '[' ∉ rest := fun hr => h (List.mem_cons_of_mem c hr)
    simp only [pipeOnlyScan]
    rw [ih (acc ++ [c]) hrest, tailPipeOnly_none c rest hc]
    simp

/-- Without any `[` the bracket-at-end attempt fails at every position. -/
theorem bracketTailAt_none (l : List Char) (h : '[' ∉ l) : bracketTailAt l = none := by
  cases l with
  | nil => rfl
  | cons c rest =>
    simp only [bracketTailAt]
    by_cases hc : c = '.' ∨ c = '[' ∨ c = ']'
    · rw [if_pos hc]
    · rw [if_neg hc]
      split
      · next r2 heq =>
          exfalso
          have hmem : '[' ∈ (c :: rest) := by
            have : '[' ∈ (c :: rest).drop
                ((c :: rest).takeWhile (fun x => x ≠ '.' ∧ x ≠ '[' ∧ x ≠ ']')).length := by
              rw [heq]
              exact List.mem_cons_self '[' r2
            exact List.drop_subset _ _ this
          exact h hmem
      · rfl

/-- Without any `[` the bracket-at-end scan finds nothing. -/
theorem bracketScanL_none (l : List Char) (h : '[' ∉ l) : bracketScanL l = none := by
  induction l with
  | nil => rfl
  | cons c rest ih =>
    have hrest : '[' ∉ rest := fun hr => h (List.mem_cons_of_mem c hr)
    simp only [bracketScanL]
    rw [bracketTailAt_none (c :: rest) h, ih hrest]

/-- Without any `[` the bracket-deletion scanner is the identity. -/
theorem stripBrLoop_id (cls : Char → Bool) : ∀ (fuel : Nat) (l : List Char), '[' ∉ l →
    stripBrLoop cls fuel l = l := by
  intro fuel
  induction fuel with
  | zero => intro l _; rfl
  | succ n ih =>
    intro l h
    cases l with
    | nil => rfl
    | cons c rest =>
      have hc : c ≠ '[' := fun hh => h (hh ▸ List.mem_cons_self c rest)
      have hrest : '[' ∉ rest := fun hr => h (List.mem_cons_of_mem c hr)
      simp only [stripBrLoop]
      rw [if_neg hc, ih rest hrest]

/-- Trimming only removes characters. -/
theorem mem_of_mem_jsTrimList (c : Char) (l : List Char) (h : c ∈ jsTrimList l) : c ∈ l := by
  unfold jsTrimList at h
  have h1 : c ∈ (l.dropWhile isWsChar).reverse.dropWhile isWsChar := List.mem_reverse.mp h
  have h2 : c ∈ (l.dropWhile isWsChar).reverse := (List.dropWhile_sublist _).subset h1
  have h3 : c ∈ l.dropWhile isWsChar := List.mem_reverse.mp h2
  exact (List.dropWhile_sublist _).subset h3

/-- Appending a fresh binding makes it visible. -/
theorem lookupPM_append_self (pm : List (String × HighlightType)) (k : String)
    (ty : HighlightType) (h : lookupPM pm k = none) :
    lookupPM (pm ++ [(k, ty)]) k = some ty := by
  induction pm with
  | nil => simp [lookupPM]
  | cons b rest ih =>
    obtain ⟨k2, ty2⟩ := b
    by_cases hk : k2 = k
    · rw [lookupPM, if_pos hk] at h
      cases h
    · rw [lookupPM, if_neg hk] at h
      simpa [lookupPM, hk] using ih h

/-- Writing the same key twice is one write (first writer wins). -/
theorem insertPM_idem (pm : List (String × HighlightType)) (k : String) (ty : HighlightType) :
    insertPM (insertPM pm k ty) k ty = insertPM pm k ty := by
  unfold insertPM
  cases h : lookupPM pm k with
  | some ty2 => simp [h]
  | none => simp [h, lookupPM_append_self pm k ty h]

/-- Claim C7.  Bracketless fallback: a mismatch string
`[FN] <path>: <detail>` whose path expression contains no brackets (and no
colon) records exactly one exact-path entry under the trimmed raw path, with
first-writer-wins semantics — the guarded write is `insertPM`, which leaves
an existing binding for the same key untouched. -/
theorem c7_bracketless_fallback (info : MismatchInfo) (p detail : String)
    (hne : p.data ≠ [])
    (hcolon : ∀ c ∈ p.data, c ≠ ':')
    (hnolb : '[' ∉ p.data) (hnorb : ']' ∉ p.data) :
    processOne info ("[FN] " ++ p ++ ": " ++ detail) =
      MismatchInfo.mk (insertPM info.pathMap (jsTrim p) HighlightType.FN) info.valueBased := by
  have hdata : ("[FN] " ++ p ++ ": " ++ detail).data =
      '[' :: 'F' :: 'N' :: ']' :: ' ' :: (p.data ++ ':' :: ' ' :: detail.data) := by
    have h0 : ("[FN] " ++ p ++ ": " ++ detail).data =
        (("[FN] ".data ++ p.data) ++ ": ".data) ++ detail.data := rfl
    have h1 : "[FN] ".data = ['[', 'F', 'N', ']', ' '] := by decide
    have h2 : ": ".data = [':', ' '] := by decide
    rw [h0, h1, h2]
    simp
  have htype : typeScanL ("[FN] " ++ p ++ ": " ++ detail).data = some HighlightType.FN := by
    rw [hdata]
    rfl
  have hpath : pathScanL ("[FN] " ++ p ++ ": " ++ detail).data =
      some (HighlightType.FN, capturePath (' ' :: p.data)) := by
    rw [hdata]
    exact pathScanL_fn p.data (' ' :: detail.data) hne hcolon
  have htrim : jsTrimList (capturePath (' ' :: p.data)) = (jsTrim p).data := by
    rw [jsTrimList_capturePath, jsTrimList_cons_space]
    rfl
  have hparse : parseTag ("[FN] " ++ p ++ ": " ++ detail) =
      some (HighlightType.FN, jsTrim p) := by
    unfold parseTag
    rw [htype, hpath]
    simp only [Option.some.injEq, Prod.mk.injEq, true_and]
    rw [show jsTrim p = String.mk (jsTrim p).data from rfl, ← htrim]
  have hlb : '[' ∉ (jsTrim p).data := fun hmem => hnolb (mem_of_mem_jsTrimList _ _ hmem)
  have hcm : compoundMatch (jsTrim p) = none := by
    unfold compoundMatch
    rw [compoundScan_none _ [] hlb]
    rfl
  have hpm : pipeOnlyMatch (jsTrim p) = none := by
    unfold pipeOnlyMatch
    rw [pipeOnlyScan_none _ [] hlb]
    rfl
  have hbm : bracketScanL (jsTrim p).data = none := bracketScanL_none _ hlb
  have hsa : stripAllBrackets (jsTrim p) = jsTrim p := by
    unfold stripAllBrackets
    rw [stripBrLoop_id _ _ _ hlb]
  have hsn : stripNonNumBrackets (jsTrim p) = jsTrim p := by
    unfold stripNonNumBrackets
    rw [stripBrLoop_id _ _ _ hlb]
  simp only [processOne, hparse, hcm, hpm, hbm, hsa, hsn]
  rw [insertPM_idem]

/-- Claim C7 witness: the claim instance `[FN] patient.name: ...` records
`exactPaths["patient.name"] = FalseNegative`. -/
theorem c7_witness :
    processOne (MismatchInfo.mk [] [])
        ("[FN] " ++ "patient.name" ++ ": " ++ "Missing from API response") =
      MismatchInfo.mk (insertPM [] (jsTrim "patient.name") HighlightType.FN) [] ∧
    insertPM [] (jsTrim "patient.name") HighlightType.FN =
      [("patient.name", HighlightType.FN)] :=
  ⟨c7_bracketless_fallback (MismatchInfo.mk [] []) "patient.name"
      "Missing from API response" (by decide) (by decide) (by decide) (by decide),
    by decide⟩

end LlmEval
